import Mathlib

/-!
# Verification of the `vcf-slider` value-mapping core

Shallow embedding of the value-mapping logic of `src/vcf-slider.ts`
(`<vcf-slider>` web component, class `Slider`).  JS numbers in the
arithmetic paths we model are embedded as rationals `ℚ`; the integer-only
drag path uses `ℤ`.  DOM-only concerns (rendering, events, CSS) are not
modelled; the functions below are direct translations of the arithmetic
in the source.
-/

namespace VcfSlider

/-- JS truncation toward zero (`Math.trunc`, and the truncation implicit in
the JS `%` operator), on rationals. -/
def jsTrunc (q : ℚ) : ℤ :=
if q < 0 then -⌊-q⌋ else ⌊q⌋

/-- The JS remainder operator `a % b` on numbers:
`a - b * trunc(a / b)` (sign follows the dividend). -/
def jsRem (a b : ℚ) : ℚ :=
a - b * (jsTrunc (a / b) : ℚ)

/-- JS `Math.round`: round half toward positive infinity.  This agrees with
Mathlib's `round` on `ℚ` (`round x = ⌊x + 1/2⌋`). -/
def jsRound (q : ℚ) : ℤ :=
⌊q + 1/2⌋

/-- `isSorted` from `vcf-slider.ts`:
`values.every((_, i, a) => !a[i - 1] || a[i] >= a[i - 1])`.
For `i = 0`, `a[-1]` is `undefined` (falsy), so the element is accepted;
for `i > 0` a falsy (`0`) predecessor also makes the test pass without
comparing. -/
def isSorted (v : List ℚ) : Bool :=
(List.range v.length).all fun i =>
  if i = 0 then true
  else if v[i - 1]! = 0 then true
  else decide (v[i - 1]! ≤ v[i]!)

/-- `sort` from `vcf-slider.ts`: `this.value = this.values.sort((a, b) => a - b)`,
i.e. sort the value array ascending. -/
def sortValues (v : List ℚ) : List ℚ :=
List.insertionSort (· ≤ ·) v

/-- The `value`-change branch of `updated()`:
`if (!this.isSorted()) this.sort(); else this.setValue();` —
the value array is replaced by its sorted version only when `isSorted`
reports it unsorted. -/
def updatedSortBranch (v : List ℚ) : List ℚ :=
if isSorted v then v else sortValues v

/-- Sortedness of a list of rationals is equivalent to all adjacent pairs
being ordered. -/
theorem sorted_iff_adjacent (v : List ℚ) :
    v.Sorted (· ≤ ·) ↔ ∀ i (h : i + 1 < v.length), v.get ⟨i, by omega⟩ ≤ v.get ⟨i + 1, h⟩ := by
  constructor
  · intro hs i h
    exact List.Sorted.get_mono hs (by simp)
  · intro h
    rw [List.Sorted, ← List.chain'_iff_pairwise, List.chain'_iff_get]
    intro i hi
    exact h i (by omega)

theorem isSorted_of_sorted {v : List ℚ} (h : v.Sorted (· ≤ ·)) : isSorted v = true := by
  rw [isSorted, List.all_eq_true]
  intro i hi
  rw [List.mem_range] at hi
  by_cases h0 : i = 0
  · simp [h0]
  · by_cases hz : v[i - 1]! = 0
    · simp [h0, hz]
    · have hi1 : i - 1 < v.length := by omega
      have key : v.get ⟨i - 1, hi1⟩ ≤ v.get ⟨i, hi⟩ := by
        have := (sorted_iff_adjacent v).1 h (i - 1) (by omega)
        simpa [Nat.sub_add_cancel (by omega : 1 ≤ i)] using this
      simp only [h0, hz, if_false]
      rw [getElem!_pos v (i - 1) hi1, getElem!_pos v i hi]
      simpa using key

theorem sorted_of_isSorted_of_ne_zero {v : List ℚ} (h : isSorted v = true)
    (hz : (0 : ℚ) ∉ v) : v.Sorted (· ≤ ·) := by
  rw [isSorted, List.all_eq_true] at h
  rw [sorted_iff_adjacent]
  intro i hi
  have hmem : (i + 1) ∈ List.range v.length := by rw [List.mem_range]; omega
  have := h (i + 1) hmem
  have hne : v[i]! ≠ 0 := by
    rw [getElem!_pos v i (by omega)]
    intro hc
    exact hz (hc ▸ List.getElem_mem (l := v) (n := i) (h := by omega))
  simp only [Nat.add_sub_cancel, Nat.add_eq_zero, and_false, if_false, hne,
    decide_eq_true_eq] at this
  rw [getElem!_pos v i (by omega), getElem!_pos v (i + 1) hi] at this
  simpa using this

/-- C1: the claim states that every operation preserves the sorted/bounded
invariant and that `updated()` re-sorts any unsorted value array.  This is
false: `isSorted` skips any adjacent comparison whose left element is `0`
(falsy in JS), so the unsorted array `[0, -5]` passes `isSorted` and the
`updated()` value branch leaves it unsorted. -/
theorem c1_counterexample :
    updatedSortBranch [0, -5] = [0, -5] ∧
      isSorted [0, -5] = true ∧ ¬ (([0, -5] : List ℚ).Sorted (· ≤ ·)) := by
  refine ⟨by decide, by decide, by decide⟩

/-- C1 (amended): after the `value`-change branch of `updated()`, the value
array always satisfies the code's `isSorted` test, and it is genuinely sorted
ascending whenever it contains no `0` entry (the test skips comparisons whose
left element is `0`, so an unsorted array whose inversions all follow a `0`
may be left as is; `min`/`max` bounds are not enforced by this branch). -/
theorem updatedSortBranch_isSorted (v : List ℚ) :
    isSorted (updatedSortBranch v) = true ∧
      ((0 : ℚ) ∉ v → (updatedSortBranch v).Sorted (· ≤ ·)) := by
  rw [updatedSortBranch]
  by_cases h : isSorted v = true
  · rw [if_pos h]
    exact ⟨h, fun hz => sorted_of_isSorted_of_ne_zero h hz⟩
  · rw [if_neg h]
    have hs : (sortValues v).Sorted (· ≤ ·) := List.sorted_insertionSort _ v
    exact ⟨isSorted_of_sorted hs, fun _ => hs⟩

/-- Witness for the amended C1 at the concrete unsorted input `[3, 1]`. -/
theorem updatedSortBranch_isSorted_witness :
    isSorted (updatedSortBranch [3, 1]) = true ∧
      (updatedSortBranch [3, 1]).Sorted (· ≤ ·) :=
  ⟨(updatedSortBranch_isSorted [3, 1]).1,
    (updatedSortBranch_isSorted [3, 1]).2 (by decide)⟩

/-- The slider configuration and value state used by the keyboard and
neighbor-bound logic of `vcf-slider.ts` (`min`, `max`, `step`, the parsed
`values` array, and `knobCount`). -/
structure SliderState where
  min : ℚ
  max : ℚ
  step : ℚ
  values : List ℚ
  knobs : ℕ

/-- The neighbor lookup `values[knobIndex - 1]` of `getPrevNeighborValue`:
for `knobIndex = 0` the JS index is `-1` and yields `undefined` (`none`). -/
def prevEntry (s : SliderState) (i : ℕ) : Option ℚ :=
if i = 0 then none else s.values[i - 1]?

/-- The adjustment in `getPrevNeighborValue`:
`if (neighborPrecisionOffset) neighboringValue += step - neighborPrecisionOffset`. -/
def adjustedPrev (step v : ℚ) : ℚ :=
let off := jsRem v step
if off ≠ 0 then v + (step - off) else v

/-- The adjustment in `getNextNeighborValue`:
`if (neighborPrecisionOffset) neighboringValue -= neighborPrecisionOffset`. -/
def adjustedNext (step v : ℚ) : ℚ :=
let off := jsRem v step
if off ≠ 0 then v - off else v

/-- `getPrevNeighborValue` from `vcf-slider.ts`: the previous neighbor's
value rounded to the step grid, with `|| min` for a falsy result (both for
the missing neighbor of knob 0, where `values[-1] % step` is `NaN`, and for
an adjusted value of `0`). -/
def getPrevNeighborValue (s : SliderState) (i : ℕ) : ℚ :=
match prevEntry s i with
| none => s.min
| some v => if adjustedPrev s.step v = 0 then s.min else adjustedPrev s.step v

/-- `getNextNeighborValue` from `vcf-slider.ts`: the next neighbor's value
rounded to the step grid, with `|| max` for a falsy result. -/
def getNextNeighborValue (s : SliderState) (i : ℕ) : ℚ :=
match s.values[i + 1]? with
| none => s.max
| some v => if adjustedNext s.step v = 0 then s.max else adjustedNext s.step v

/-- `decreaseKnobValue` from `vcf-slider.ts`: for a single knob the scalar
`value` becomes `single` (so the parsed values are `[single]`); otherwise
knob 0 gets `first` and any other knob gets `other`. -/
def decreaseKnobValue (s : SliderState) (i : ℕ) (single first other : ℚ) : List ℚ :=
if s.knobs = 1 then [single]
else if i = 0 then s.values.set i first
else s.values.set i other

/-- `increaseKnobValue` from `vcf-slider.ts`: for a single knob the scalar
`value` becomes `single`; otherwise the last knob gets `last` and any other
knob gets `other`. -/
def increaseKnobValue (s : SliderState) (i : ℕ) (single last other : ℚ) : List ℚ :=
if s.knobs = 1 then [single]
else if i = s.knobs - 1 then s.values.set i last
else s.values.set i other

/-- `decreaseKnobValueByStep` from `vcf-slider.ts`. -/
def decreaseKnobValueByStep (s : SliderState) (i : ℕ) : List ℚ :=
decreaseKnobValue s i (max s.min (s.values[0]! - s.step))
  (max s.min (s.values[0]! - s.step))
  (max s.min (max (s.values[i]! - s.step) (getPrevNeighborValue s i)))

/-- `decreaseKnobValueToLowest` from `vcf-slider.ts` (the `Home` key). -/
def decreaseKnobValueToLowest (s : SliderState) (i : ℕ) : List ℚ :=
decreaseKnobValue s i s.min s.min (max s.min (getPrevNeighborValue s i))

/-- `increaseKnobValueByStep` from `vcf-slider.ts`. -/
def increaseKnobValueByStep (s : SliderState) (i : ℕ) : List ℚ :=
increaseKnobValue s i (min s.max (s.values[0]! + s.step))
  (min s.max (s.values[i]! + s.step))
  (min s.max (min (s.values[i]! + s.step) (getNextNeighborValue s i)))

/-- `increaseKnobValueToHighest` from `vcf-slider.ts` (the `End` key). -/
def increaseKnobValueToHighest (s : SliderState) (i : ℕ) : List ℚ :=
increaseKnobValue s i s.max s.max (min s.max (getNextNeighborValue s i))

/-- The keys `keyMove` dispatches on. -/
inductive SliderKey
| arrowLeft
| arrowDown
| arrowRight
| arrowUp
| homeKey
| endKey
| otherKey

/-- `keyMove` from `vcf-slider.ts`: dispatch a key press on knob `i` to the
corresponding value change (other keys leave the values unchanged). -/
def keyMove (s : SliderState) (k : SliderKey) (i : ℕ) : List ℚ :=
match k with
| .arrowLeft => decreaseKnobValueByStep s i
| .arrowDown => decreaseKnobValueByStep s i
| .arrowRight => increaseKnobValueByStep s i
| .arrowUp => increaseKnobValueByStep s i
| .homeKey => decreaseKnobValueToLowest s i
| .endKey => increaseKnobValueToHighest s i
| .otherKey => s.values

theorem set_of_length_one {l : List ℚ} (h : l.length = 1) (x : ℚ) :
    [x] = l.set 0 x := by
  match l, h with
  | [a], _ => rfl

/-- C3: ArrowRight/ArrowUp set knob `i` to `min(max, values[i] + step)` for a
single-knob slider or the last knob, and to
`min(max, values[i] + step, nextNeighborBound)` otherwise; ArrowLeft/ArrowDown
symmetrically with `max(min, values[i] - step)` and the previous-neighbor
bound. -/
theorem keyMove_arrow_step (s : SliderState) (i : ℕ)
    (hlen : s.values.length = s.knobs) (hi : i < s.knobs) :
    keyMove s .arrowRight i =
        s.values.set i
          (if s.knobs = 1 ∨ i = s.knobs - 1 then min s.max (s.values[i]! + s.step)
           else min s.max (min (s.values[i]! + s.step) (getNextNeighborValue s i))) ∧
      keyMove s .arrowUp i = keyMove s .arrowRight i ∧
      keyMove s .arrowLeft i =
        s.values.set i
          (if s.knobs = 1 ∨ i = 0 then max s.min (s.values[i]! - s.step)
           else max s.min (max (s.values[i]! - s.step) (getPrevNeighborValue s i))) ∧
      keyMove s .arrowDown i = keyMove s .arrowLeft i := by
  have hone : s.knobs = 1 → i = 0 := fun h => by omega
  refine ⟨?_, rfl, ?_, rfl⟩
  · show increaseKnobValueByStep s i = _
    rw [increaseKnobValueByStep, increaseKnobValue]
    by_cases h1 : s.knobs = 1
    · have hi0 : i = 0 := hone h1
      rw [if_pos h1, if_pos (Or.inl h1), hi0]
      exact set_of_length_one (by omega) _
    · rw [if_neg h1]
      by_cases h2 : i = s.knobs - 1
      · rw [if_pos h2, if_pos (Or.inr h2)]
      · rw [if_neg h2, if_neg (by tauto)]
  · show decreaseKnobValueByStep s i = _
    rw [decreaseKnobValueByStep, decreaseKnobValue]
    by_cases h1 : s.knobs = 1
    · have hi0 : i = 0 := hone h1
      rw [if_pos h1, if_pos (Or.inl h1), hi0]
      exact set_of_length_one (by omega) _
    · rw [if_neg h1]
      by_cases h2 : i = 0
      · rw [if_pos h2, if_pos (Or.inr h2), h2]
      · rw [if_neg h2, if_neg (by tauto)]

/-- Witness for C3 at a concrete two-knob state. -/
theorem keyMove_arrow_step_witness :
    keyMove ⟨0, 100, 5, [10, 20], 2⟩ .arrowRight 0 =
        [min 100 (min (10 + 5) (getNextNeighborValue ⟨0, 100, 5, [10, 20], 2⟩ 0)), 20] := by
  have h := (keyMove_arrow_step ⟨0, 100, 5, [10, 20], 2⟩ 0 (by decide) (by decide)).1
  rw [h]
  norm_num

/-- C4: Home sets knob `i` to `min` when `i = 0` or the slider has a single
knob, and to `max(min, prevNeighborBound)` otherwise; End sets knob `i` to
`max` when `i` is the last knob or the slider has a single knob, and to
`min(max, nextNeighborBound)` otherwise. -/
theorem keyMove_home_end (s : SliderState) (i : ℕ)
    (hlen : s.values.length = s.knobs) (hi : i < s.knobs) :
    keyMove s .homeKey i =
        s.values.set i
          (if s.knobs = 1 ∨ i = 0 then s.min
           else max s.min (getPrevNeighborValue s i)) ∧
      keyMove s .endKey i =
        s.values.set i
          (if s.knobs = 1 ∨ i = s.knobs - 1 then s.max
           else min s.max (getNextNeighborValue s i)) := by
  have hone : s.knobs = 1 → i = 0 := fun h => by omega
  constructor
  · show decreaseKnobValueToLowest s i = _
    rw [decreaseKnobValueToLowest, decreaseKnobValue]
    by_cases h1 : s.knobs = 1
    · have hi0 : i = 0 := hone h1
      rw [if_pos h1, if_pos (Or.inl h1), hi0]
      exact set_of_length_one (by omega) _
    · rw [if_neg h1]
      by_cases h2 : i = 0
      · rw [if_pos h2, if_pos (Or.inr h2)]
      · rw [if_neg h2, if_neg (by tauto)]
  · show increaseKnobValueToHighest s i = _
    rw [increaseKnobValueToHighest, increaseKnobValue]
    by_cases h1 : s.knobs = 1
    · have hi0 : i = 0 := hone h1
      rw [if_pos h1, if_pos (Or.inl h1), hi0]
      exact set_of_length_one (by omega) _
    · rw [if_neg h1]
      by_cases h2 : i = s.knobs - 1
      · rw [if_pos h2, if_pos (Or.inr h2)]
      · rw [if_neg h2, if_neg (by tauto)]

/-- Witness for C4 at a concrete two-knob state. -/
theorem keyMove_home_end_witness :
    keyMove ⟨0, 100, 5, [10, 20], 2⟩ .homeKey 0 = [0, 20] := by
  have h := (keyMove_home_end ⟨0, 100, 5, [10, 20], 2⟩ 0 (by decide) (by decide)).1
  rw [h]
  norm_num

/-- Modelled from the spec's words for comparison: "values[i-1] rounded up to
the next multiple of step" — the least multiple of `step` that is `≥ v`
(for `step > 0`). -/
def specRoundUp (step v : ℚ) : ℚ :=
step * ⌈v / step⌉

/-- Modelled from the spec's words for comparison: "values[i+1] rounded down
to the previous multiple of step" — the greatest multiple of `step` that is
`≤ v` (for `step > 0`). -/
def specRoundDown (step v : ℚ) : ℚ :=
step * ⌊v / step⌋

theorem jsTrunc_of_nonneg {q : ℚ} (h : 0 ≤ q) : jsTrunc q = ⌊q⌋ := by
  rw [jsTrunc, if_neg (not_lt.2 h)]

theorem adjustedPrev_eq_specRoundUp {step v : ℚ} (hstep : 0 < step) (hv : 0 ≤ v) :
    adjustedPrev step v = specRoundUp step v := by
  have hs0 : step ≠ 0 := ne_of_gt hstep
  have hdiv : (0 : ℚ) ≤ v / step := div_nonneg hv (le_of_lt hstep)
  have hrem : jsRem v step = v - step * ⌊v / step⌋ := by
    rw [jsRem, jsTrunc_of_nonneg hdiv]
  rw [adjustedPrev, specRoundUp]
  by_cases h : jsRem v step = 0
  · rw [if_neg (by simpa using h)]
    have hv' : v = step * ⌊v / step⌋ := by
      have := h
      rw [hrem] at this
      linarith
    have : v / step = ((⌊v / step⌋ : ℤ) : ℚ) := by
      rw [hv']
      field_simp
    rw [this, Int.ceil_intCast]
    linarith [hv']
  · rw [if_pos (by simpa using h)]
    have hne : v / step ≠ ((⌊v / step⌋ : ℤ) : ℚ) := by
      intro hc
      apply h
      rw [hrem, ← hc]
      have hms : step * (v / step) = v := by field_simp
      linarith
    have hlt : ((⌊v / step⌋ : ℤ) : ℚ) < v / step :=
      lt_of_le_of_ne (Int.floor_le _) (Ne.symm hne)
    have hceil : ⌈v / step⌉ = ⌊v / step⌋ + 1 := by
      refine le_antisymm (Int.ceil_le_floor_add_one _) ?_
      have h1 : ((⌊v / step⌋ : ℤ) : ℚ) < ((⌈v / step⌉ : ℤ) : ℚ) :=
        lt_of_lt_of_le hlt (Int.le_ceil _)
      exact_mod_cast Int.add_one_le_iff.2 (by exact_mod_cast h1)
    rw [hceil, hrem]
    push_cast
    ring

theorem adjustedNext_eq_specRoundDown {step v : ℚ} (hstep : 0 < step) (hv : 0 ≤ v) :
    adjustedNext step v = specRoundDown step v := by
  have hdiv : (0 : ℚ) ≤ v / step := div_nonneg hv (le_of_lt hstep)
  have hrem : jsRem v step = v - step * ⌊v / step⌋ := by
    rw [jsRem, jsTrunc_of_nonneg hdiv]
  rw [adjustedNext, specRoundDown]
  by_cases h : jsRem v step = 0
  · rw [if_neg (by simpa using h)]
    rw [hrem] at h
    linarith
  · rw [if_pos (by simpa using h), hrem]
    ring

/-- C5: the claim states the effective lower bound is `values[i-1]` rounded up
to the next multiple of `step`.  This is false: the code appends `|| min`, so
when the grid-rounded neighbor value is `0` the bound falls back to the global
`min` instead.  With `min = -10`, `step = 1`, `values = [0, 5]`, knob 1's
lower bound is `-10`, not the rounded neighbor value `0`. -/
theorem getPrevNeighborValue_counterexample :
    getPrevNeighborValue ⟨-10, 10, 1, [0, 5], 2⟩ 1 = -10 ∧
      specRoundUp 1 ((([0, 5] : List ℚ))[0]!) = 0 ∧ ((-10 : ℚ) ≠ 0) := by
  refine ⟨?_, ?_, by norm_num⟩
  · have hz : adjustedPrev 1 0 = 0 := by
      norm_num [adjustedPrev, jsRem, jsTrunc]
    simp [getPrevNeighborValue, prevEntry, hz]
  · have : ((1 : ℚ) * ⌈(0 : ℚ) / 1⌉ : ℚ) = 0 := by norm_num
    simpa [specRoundUp] using this

/-- C5 (amended): for `step > 0` and nonnegative neighbor values, the
effective lower bound of knob `i ≥ 1` is `values[i-1]` rounded up to the next
multiple of `step` — except that a rounded value of `0` falls back to the
global `min` — and `min` for knob 0; symmetrically the upper bound is
`values[i+1]` rounded down to the previous multiple of `step`, with a rounded
`0` falling back to `max`, and `max` for the last knob. -/
theorem neighborBounds_gridRounded (s : SliderState) (i : ℕ) (hstep : 0 < s.step) :
    getPrevNeighborValue s 0 = s.min ∧
      (1 ≤ i → ∀ (h2 : i - 1 < s.values.length), 0 ≤ s.values[i - 1]! →
        getPrevNeighborValue s i =
          if specRoundUp s.step (s.values[i - 1]!) = 0 then s.min
          else specRoundUp s.step (s.values[i - 1]!)) ∧
      (s.values.length ≤ i + 1 → getNextNeighborValue s i = s.max) ∧
      (∀ (h : i + 1 < s.values.length), 0 ≤ s.values[i + 1]! →
        getNextNeighborValue s i =
          if specRoundDown s.step (s.values[i + 1]!) = 0 then s.max
          else specRoundDown s.step (s.values[i + 1]!)) := by
  refine ⟨?_, ?_, ?_, ?_⟩
  · simp [getPrevNeighborValue, prevEntry]
  · intro h1 h2 hv
    have hsome : prevEntry s i = some (s.values[i - 1]!) := by
      rw [prevEntry, if_neg (by omega), getElem!_pos s.values (i - 1) h2,
        List.getElem?_eq_getElem h2]
    rw [getPrevNeighborValue, hsome]
    simp only [adjustedPrev_eq_specRoundUp hstep hv]
  · intro h
    have hnone : s.values[i + 1]? = none := by
      rw [List.getElem?_eq_none h]
    rw [getNextNeighborValue, hnone]
  · intro h hv
    have hsome : s.values[i + 1]? = some (s.values[i + 1]!) := by
      rw [getElem!_pos s.values (i + 1) h, List.getElem?_eq_getElem h]
    rw [getNextNeighborValue, hsome]
    simp only [adjustedNext_eq_specRoundDown hstep hv]

/-- Witness for the amended C5 at a concrete three-knob state. -/
theorem neighborBounds_gridRounded_witness :
    getPrevNeighborValue ⟨-10, 10, 2, [4, 5, 6], 3⟩ 1 = 4 ∧
      getNextNeighborValue ⟨-10, 10, 2, [4, 5, 6], 3⟩ 1 = 6 := by
  have h := neighborBounds_gridRounded ⟨-10, 10, 2, [4, 5, 6], 3⟩ 1 (by norm_num)
  have hup : specRoundUp 2 ((([4, 5, 6] : List ℚ))[0]!) = 4 := by
    have h4 : ((([4, 5, 6] : List ℚ))[0]! : ℚ) = 4 := by simp
    rw [specRoundUp, h4, show ((4 : ℚ) / 2) = ((2 : ℤ) : ℚ) by norm_num,
      Int.ceil_intCast]
    norm_num
  have hdown : specRoundDown 2 ((([4, 5, 6] : List ℚ))[2]!) = 6 := by
    have h6 : ((([4, 5, 6] : List ℚ))[2]! : ℚ) = 6 := by simp
    rw [specRoundDown, h6]
    norm_num
  constructor
  · rw [h.2.1 (by norm_num) (by simp) (by simp), hup]
    norm_num
  · rw [h.2.2.2 (by simp) (by simp), hdown]
    norm_num

theorem adjustedPrev_zero (step : ℚ) : adjustedPrev step 0 = 0 := by
  norm_num [adjustedPrev, jsRem, jsTrunc]

theorem adjustedNext_zero (step : ℚ) : adjustedNext step 0 = 0 := by
  norm_num [adjustedNext, jsRem, jsTrunc]

/-- C9: whenever the grid-adjusted neighboring value is `0` — in particular
when the neighbor's value is `0` — or the neighbor is missing,
`getPrevNeighborValue` falls back to the global `min` and
`getNextNeighborValue` falls back to the global `max`. -/
theorem neighborBounds_zero_fallback (s : SliderState) (i : ℕ) :
    (∀ v, prevEntry s i = some v → adjustedPrev s.step v = 0 →
        getPrevNeighborValue s i = s.min) ∧
      (prevEntry s i = none → getPrevNeighborValue s i = s.min) ∧
      (∀ v, s.values[i + 1]? = some v → adjustedNext s.step v = 0 →
        getNextNeighborValue s i = s.max) ∧
      (s.values[i + 1]? = none → getNextNeighborValue s i = s.max) ∧
      (prevEntry s i = some 0 → getPrevNeighborValue s i = s.min) ∧
      (s.values[i + 1]? = some 0 → getNextNeighborValue s i = s.max) := by
  refine ⟨?_, ?_, ?_, ?_, ?_, ?_⟩
  · intro v hsome hz
    simp only [getPrevNeighborValue, hsome]
    rw [if_pos hz]
  · intro hnone
    simp only [getPrevNeighborValue, hnone]
  · intro v hsome hz
    simp only [getNextNeighborValue, hsome]
    rw [if_pos hz]
  · intro hnone
    simp only [getNextNeighborValue, hnone]
  · intro hsome
    simp only [getPrevNeighborValue, hsome]
    rw [if_pos (adjustedPrev_zero s.step)]
  · intro hsome
    simp only [getNextNeighborValue, hsome]
    rw [if_pos (adjustedNext_zero s.step)]

/-- Witness for C9: knob 1 of `values = [0, 5, 0]` is bounded below by
`min = -10` and above by `max = 10`, because both neighbors are `0`. -/
theorem neighborBounds_zero_fallback_witness :
    getPrevNeighborValue ⟨-10, 10, 1, [0, 5, 0], 3⟩ 1 = -10 ∧
      getNextNeighborValue ⟨-10, 10, 1, [0, 5, 0], 3⟩ 1 = 10 := by
  have h := neighborBounds_zero_fallback ⟨-10, 10, 1, [0, 5, 0], 3⟩ 1
  exact ⟨h.2.2.2.2.1 (by decide), h.2.2.2.2.2 (by decide)⟩

/-- The `ranges` branch of `updated()` composed with the `knobs` setter:
`this.knobs = 2 * ranges || 1` where the setter keeps the value only when it
is `> 0` (`this.knobCount = value > 0 ? value : 1`).  `ranges` is a JS
number, embedded as `ℚ`. -/
def updateKnobCount (ranges : ℚ) : ℚ :=
let t := if 2 * ranges ≠ 0 then 2 * ranges else 1
if t > 0 then t else 1

/-- C6: the claim states `knobCount = max(1, 2*ranges)` for every non-negative
number `ranges`.  This is false for fractional `ranges` in `(0, 1/2)`:
`ranges = 1/4` is a non-negative number, `2 * ranges = 1/2` is truthy and
positive, so `knobCount` becomes `1/2`, not `max(1, 1/2) = 1`. -/
theorem updateKnobCount_counterexample :
    updateKnobCount (1/4) = 1/2 ∧ max (1 : ℚ) (2 * (1/4)) = 1 ∧ ((1/2 : ℚ) ≠ 1) := by
  norm_num [updateKnobCount]

/-- C6 (amended): after the `ranges` property updates with a non-negative
number, `knobCount` is `2 * ranges` when `ranges > 0` and `1` when
`ranges = 0`; this equals `max(1, 2*ranges)` whenever `ranges = 0` or
`ranges ≥ 1/2` — in particular for every non-negative integer count — but a
fractional `ranges` in `(0, 1/2)` yields `knobCount = 2*ranges < 1`. -/
theorem updateKnobCount_eq_max (r : ℚ) (hr : 0 ≤ r) (h : r = 0 ∨ 1/2 ≤ r) :
    updateKnobCount r = max 1 (2 * r) := by
  rcases h with h | h
  · subst h
    norm_num [updateKnobCount]
  · rw [updateKnobCount]
    have h1 : (1 : ℚ) ≤ 2 * r := by linarith
    have h2 : (2 : ℚ) * r ≠ 0 := by positivity
    rw [if_pos h2, if_pos (by positivity)]
    exact (max_eq_right h1).symm

/-- Witness for the amended C6 at `ranges = 3`. -/
theorem updateKnobCount_eq_max_witness : updateKnobCount 3 = 6 := by
  rw [updateKnobCount_eq_max 3 (by norm_num) (Or.inr (by norm_num))]
  norm_num

/-- The `step` branch of `updated()`:
`this.step = this.step < 0 ? 1 : this.step`. -/
def updateStep (step : ℚ) : ℚ :=
if step < 0 then 1 else step

/-- The `else` of the `ranges` branch of `updated()`: a `ranges` value that
fails `ranges >= 0` is reset to `0` (`else this.ranges = 0`). -/
def normalizeRanges (ranges : ℚ) : ℚ :=
if 0 ≤ ranges then ranges else 0

/-- C7: the claim states a `step` that is not a positive integer `≥ 1` is
reset to the default `1`.  This is false: `updated()` only resets a *negative*
step (`this.step = this.step < 0 ? 1 : this.step`), so the fractional step
`1/2` — not a positive integer — is kept (fractional steps are in fact
supported via the `decimalCount` machinery), and `step = 0` is kept too. -/
theorem updateStep_counterexample :
    updateStep (1/2) = 1/2 ∧ ¬(∃ n : ℕ, (1/2 : ℚ) = n ∧ 1 ≤ n) ∧
      updateStep 0 = 0 := by
  refine ⟨by norm_num [updateStep], ?_, by norm_num [updateStep]⟩
  rintro ⟨n, hn, h1⟩
  have : (1 : ℚ) ≤ (n : ℚ) := by exact_mod_cast h1
  rw [← hn] at this
  norm_num at this

/-- C7 (amended): invalid configuration is silently corrected, not raised:
a `ranges` value that is not a non-negative number is reset to `0`, and a
*negative* `step` is reset to the default `1`; a zero or fractional step is
kept unchanged. -/
theorem updateConfig_normalizes (r s : ℚ) :
    (r < 0 → normalizeRanges r = 0) ∧
      (0 ≤ r → normalizeRanges r = r) ∧
      (s < 0 → updateStep s = 1) ∧
      (0 ≤ s → updateStep s = s) := by
  refine ⟨fun h => ?_, fun h => ?_, fun h => ?_, fun h => ?_⟩
  · rw [normalizeRanges, if_neg (not_le.2 h)]
  · rw [normalizeRanges, if_pos h]
  · rw [updateStep, if_pos h]
  · rw [updateStep, if_neg (not_lt.2 h)]

/-- Witness for the amended C7 at `ranges = -3`, `step = -2`. -/
theorem updateConfig_normalizes_witness :
    normalizeRanges (-3) = 0 ∧ updateStep (-2) = 1 :=
  ⟨(updateConfig_normalizes (-3) (-2)).1 (by norm_num),
    (updateConfig_normalizes (-3) (-2)).2.2.1 (by norm_num)⟩

/-- `initialValue` from `vcf-slider.ts`: evenly spaced initial knob values
(`min`, `i * (max - min)/(knobs - 1)`, …, `max`), each rounded to an integer,
snapped onto the step grid by `init -= init % step`, and clamped to
`[min, max]`; when a `value` attribute is present and `ranges` is falsy, it
overrides knob 0. -/
def initialValue (knobs : ℕ) (vmin vmax step : ℚ) (valueAttr : Option ℚ)
    (ranges : ℚ) : List ℚ :=
let valueStep := (vmax - vmin) / ((knobs : ℚ) - 1)
let base := (List.range knobs).map fun i =>
  let init0 : ℤ :=
    jsRound (if i = 0 then vmin else if i + 1 < knobs then (i : ℚ) * valueStep else vmax)
  let init1 : ℚ := (init0 : ℚ) - jsRem (init0 : ℚ) step
  if init1 < vmin then vmin else if init1 > vmax then vmax else init1
match valueAttr with
| some a => if ranges = 0 then base.set 0 a else base
| none => base

/-- The recompute of the `ranges`/`min`/`max` branch of `updated()`:
`const newValue = this.initialValue.map((_, i) => this.values[i] ?? this.initialValue[i])`. -/
def recomputedValue (knobs : ℕ) (vmin vmax step : ℚ) (valueAttr : Option ℚ)
    (ranges : ℚ) (values : List ℚ) : List ℚ :=
let init := initialValue knobs vmin vmax step valueAttr ranges
(List.range init.length).map fun i => (values[i]?).getD (init[i]!)

/-- Which reactive properties changed in an `updated()` cycle
(`props.has(...)`). -/
structure ChangedProps where
  step : Bool
  ranges : Bool
  min : Bool
  max : Bool
  value : Bool

/-- The value-recompute trigger of `updated()`: the value array is re-derived
only under `if (props.has('ranges') || props.has('min') || props.has('max'))`. -/
def updatedValueRecompute (p : ChangedProps) (knobs : ℕ) (vmin vmax step : ℚ)
    (valueAttr : Option ℚ) (ranges : ℚ) (values : List ℚ) : List ℚ :=
if p.ranges || p.min || p.max then
  recomputedValue knobs vmin vmax step valueAttr ranges values
else values

theorem initialValue_length (knobs : ℕ) (vmin vmax step : ℚ)
    (valueAttr : Option ℚ) (ranges : ℚ) :
    (initialValue knobs vmin vmax step valueAttr ranges).length = knobs := by
  cases valueAttr with
  | none => simp [initialValue]
  | some a =>
    by_cases h : ranges = 0 <;> simp [initialValue, h]

/-- C8: the claim states the value array is recomputed whenever any of `min`,
`max`, `ranges`, or `step` changes.  This is false for `step`: the recompute
branch only tests `ranges`, `min`, and `max`, so an update where only `step`
changed leaves the value array untouched (here `[5, 6]` with `knobCount = 1`,
which a recompute would truncate to `[5]`). -/
theorem updatedValueRecompute_counterexample :
    updatedValueRecompute ⟨true, false, false, false, false⟩ 1 0 100 1 none 0 [5, 6]
        = [5, 6] ∧
      recomputedValue 1 0 100 1 none 0 [5, 6] = [5] ∧
      (([5, 6] : List ℚ) ≠ [5]) := by
  refine ⟨by rw [updatedValueRecompute]; simp, ?_, by simp⟩
  have hlen : (initialValue 1 0 100 1 none 0).length = 1 :=
    initialValue_length 1 0 100 1 none 0
  rw [recomputedValue]
  simp only [hlen]
  rw [show List.range 1 = [0] from rfl]
  simp

/-- C8 (amended): the value array is recomputed — re-derived from the initial
evenly-spaced values, keeping any existing per-knob value — whenever `min`,
`max`, or `ranges` changes; a change of `step` alone does *not* recompute it. -/
theorem updatedValueRecompute_spec (p : ChangedProps) (knobs : ℕ)
    (vmin vmax step : ℚ) (valueAttr : Option ℚ) (ranges : ℚ) (values : List ℚ) :
    ((p.ranges || p.min || p.max) = true →
        (updatedValueRecompute p knobs vmin vmax step valueAttr ranges values).length
            = knobs ∧
          ∀ i, i < knobs →
            (updatedValueRecompute p knobs vmin vmax step valueAttr ranges values)[i]!
              = if i < values.length then values[i]!
                else (initialValue knobs vmin vmax step valueAttr ranges)[i]!) ∧
      ((p.ranges || p.min || p.max) = false →
        updatedValueRecompute p knobs vmin vmax step valueAttr ranges values
          = values) := by
  constructor
  · intro h
    rw [updatedValueRecompute, if_pos h, recomputedValue]
    simp only [initialValue_length]
    constructor
    · simp
    · intro i hi
      have hget :
          ((List.range knobs).map fun j =>
              (values[j]?).getD
                ((initialValue knobs vmin vmax step valueAttr ranges)[j]!))[i]!
            = (values[i]?).getD
                ((initialValue knobs vmin vmax step valueAttr ranges)[i]!) := by
        rw [getElem!_pos _ i (by simpa using hi)]
        simp [hi]
      rw [hget]
      by_cases hv : i < values.length
      · rw [if_pos hv, List.getElem?_eq_getElem hv, getElem!_pos values i hv]
        rfl
      · rw [if_neg hv, List.getElem?_eq_none (by omega)]
        rfl
  · intro h
    rw [updatedValueRecompute, if_neg (by simp [h])]

/-- Witness for the amended C8: a `ranges` change with `knobCount = 2` and a
partial existing value array keeps knob 0's value. -/
theorem updatedValueRecompute_spec_witness :
    (updatedValueRecompute ⟨false, true, false, false, false⟩ 2 0 100 1 none 1
        [7]).length = 2 ∧
      (updatedValueRecompute ⟨false, true, false, false, false⟩ 2 0 100 1 none 1
        [7])[0]! = 7 := by
  have h :=
    (updatedValueRecompute_spec ⟨false, true, false, false, false⟩ 2 0 100 1 none 1
      [7]).1 (by decide)
  refine ⟨h.1, ?_⟩
  rw [h.2 0 (by norm_num)]
  simp

/-- The forms the public `value` property can take at runtime: a string, a
number, an array of numbers, or `null`/`undefined`. -/
inductive JSValue
| str (s : String)
| num (q : ℚ)
| arr (l : List ℚ)
| nullish

/-- The `values` getter from `vcf-slider.ts`, with the host `JSON.parse`
abstracted as `parse`:
`if (typeof value === 'string') value = JSON.parse(value[0] === '[' ? value : ` +
`\x7b$[value]\x7d`); else value = Array.isArray(value) ? value : [value || 0]`.
A string is parsed directly when its first character is `'['` and wrapped in
brackets otherwise; an array is returned unchanged; any other value `v`
becomes `[v || 0]`, so `0`, `null` and `undefined` all give `[0]`. -/
def valuesGetter (parse : String → List ℚ) : JSValue → List ℚ
| .str s => if s.front = '[' then parse s else parse ("[" ++ s ++ "]")
| .num q => [if q = 0 then 0 else q]
| .arr l => l
| .nullish => [0]

/-- C10: the `values` getter normalizes every form of the public `value`
property into a number array — a string starting with `'['` is JSON-parsed
directly, any other string is parsed wrapped in brackets, an array is
returned unchanged, a number `n` gives `[n]`, and `null`/`undefined`/`0`
give `[0]`. -/
theorem valuesGetter_normalizes (parse : String → List ℚ) (s : String) (q : ℚ)
    (l : List ℚ) :
    (s.front = '[' → valuesGetter parse (.str s) = parse s) ∧
      (s.front ≠ '[' → valuesGetter parse (.str s) = parse ("[" ++ s ++ "]")) ∧
      valuesGetter parse (.arr l) = l ∧
      valuesGetter parse (.num q) = [q] ∧
      valuesGetter parse .nullish = [0] ∧
      valuesGetter parse (.num 0) = [0] := by
  refine ⟨fun h => ?_, fun h => ?_, rfl, ?_, rfl, by norm_num [valuesGetter]⟩
  · rw [valuesGetter, if_pos h]
  · rw [valuesGetter, if_neg h]
  · rw [valuesGetter]
    by_cases hq : q = 0
    · rw [if_pos hq, hq]
    · rw [if_neg hq]

/-- Witness for C10 with a concrete parse function and inputs. -/
theorem valuesGetter_normalizes_witness :
    valuesGetter (fun _ => [1, 2]) (.str "[1,2]") = [1, 2] ∧
      valuesGetter (fun _ => [5]) (.str "5") = [5] ∧
      valuesGetter (fun _ => []) (.num 7) = [7] :=
  ⟨(valuesGetter_normalizes (fun _ => [1, 2]) "[1,2]" 0 []).1 (by decide),
    (valuesGetter_normalizes (fun _ => [5]) "5" 0 []).2.1 (by decide),
    (valuesGetter_normalizes (fun _ => []) "" 7 []).2.2.2.1⟩

/-- The knob-position clamp of `drag`: the proposed knob offset is limited to
the interval between `startPos` and `endPos` (the track ends, or the
neighboring knobs' offsets), with the comparisons reversed for `rtl`:
`startLimit = rtl ? pos >= start : pos <= start`,
`endLimit = rtl ? pos <= end : pos >= end`,
`pos = startLimit ? start : endLimit ? end : pos`. -/
def dragClampPos (startPos endPos pos : ℚ) (rtl : Bool) : ℚ :=
let startLimit : Bool := if rtl then decide (startPos ≤ pos) else decide (pos ≤ startPos)
let endLimit : Bool := if rtl then decide (pos ≤ endPos) else decide (endPos ≤ pos)
if startLimit then startPos else if endLimit then endPos else pos

/-- The track-relative fraction of `drag`:
`pct = (newKnobPositionXY + knobSize / 2) / lineSize`. -/
def dragPct (pos knobSize lineSize : ℚ) : ℚ :=
(pos + knobSize / 2) / lineSize

/-- The step-limiting block of `drag` (after the multiplier handling; here the
integer-configuration path, `decimalCount = 0`):
`if (value >= length) value = length; else if (!(value === min || (value > min`
`&& Math.abs(value) % step === 0))) value = Math.round(value / step) * step`.
Note the min-relative `value` is compared against the absolute `min`. -/
def dragStepLimit (vmin len stepc value : ℤ) : ℤ :=
if len ≤ value then len
else if value = vmin ∨ (vmin < value ∧ (value.natAbs : ℤ) % stepc = 0) then value
else jsRound ((value : ℚ) / (stepc : ℚ)) * stepc

/-- The value computation of `drag` for an integer configuration
(`min`, `max`, `step : ℤ`, so `decimalCount = 0`): the min-relative value
`pct * (max - min)` (reversed for `rtl`) is rounded, step-limited, and
shifted by `min` (`value += min`). -/
def dragValue (vmin vmax stepc : ℤ) (pct : ℚ) (rtl : Bool) : ℤ :=
let len := vmax - vmin
let v0 : ℚ := pct * (len : ℚ)
let v1 : ℚ := if rtl then (len : ℚ) - v0 else v0
dragStepLimit vmin len stepc (jsRound v1) + vmin

theorem jsRound_nonneg {q : ℚ} (h : 0 ≤ q) : 0 ≤ jsRound q := by
  rw [jsRound, Int.floor_nonneg]
  linarith

theorem jsRound_le_int {q : ℚ} {n : ℤ} (h : q ≤ (n : ℚ)) : jsRound q ≤ n := by
  rw [jsRound]
  have h2 : q + 1/2 < ((n + 1 : ℤ) : ℚ) := by push_cast; linarith
  exact Int.lt_add_one_iff.1 (Int.floor_lt.2 h2)

theorem dragStepLimit_spec (vmin len stepc value : ℤ) (hL : 0 ≤ len)
    (hs : 1 ≤ stepc) (h0 : 0 ≤ value) (h1 : value ≤ len) :
    0 ≤ dragStepLimit vmin len stepc value ∧
      (dragStepLimit vmin len stepc value = len ∨
        stepc ∣ dragStepLimit vmin len stepc value ∨
        dragStepLimit vmin len stepc value = vmin) ∧
      2 * dragStepLimit vmin len stepc value ≤ 2 * len + stepc := by
  rw [dragStepLimit]
  by_cases hA : len ≤ value
  · rw [if_pos hA]
    exact ⟨hL, Or.inl rfl, by omega⟩
  · rw [if_neg hA]
    by_cases hB : value = vmin ∨ (vmin < value ∧ (value.natAbs : ℤ) % stepc = 0)
    · rw [if_pos hB]
      refine ⟨h0, ?_, by omega⟩
      rcases hB with hB | ⟨hlt, hdvd⟩
      · exact Or.inr (Or.inr hB)
      · refine Or.inr (Or.inl ?_)
        have hna : (value.natAbs : ℤ) = value := Int.natAbs_of_nonneg h0
        rw [← hna]
        exact Int.dvd_of_emod_eq_zero hdvd
    · rw [if_neg hB]
      have hstepq : (0 : ℚ) < (stepc : ℚ) := by exact_mod_cast lt_of_lt_of_le one_pos hs
      have hrnn : 0 ≤ jsRound ((value : ℚ) / (stepc : ℚ)) :=
        jsRound_nonneg (div_nonneg (by exact_mod_cast h0) (le_of_lt hstepq))
      have hrle : ((jsRound ((value : ℚ) / (stepc : ℚ)) : ℤ) : ℚ) ≤
          (value : ℚ) / stepc + 1/2 := by
        rw [jsRound]
        push_cast
        linarith [Int.floor_le ((value : ℚ) / (stepc : ℚ) + 1/2)]
      refine ⟨mul_nonneg hrnn (by omega), Or.inr (Or.inl ⟨_, mul_comm _ _⟩), ?_⟩
      have hvL : value ≤ len - 1 := by omega
      have key : (2 : ℚ) * ((jsRound ((value : ℚ) / (stepc : ℚ)) : ℤ) * stepc) ≤
          2 * (value : ℚ) + stepc := by
        have hmul := mul_le_mul_of_nonneg_right hrle (le_of_lt hstepq)
        have hexp : ((value : ℚ) / stepc + 1/2) * stepc = (value : ℚ) + stepc / 2 := by
          field_simp
          ring
        rw [hexp] at hmul
        linarith
      have keyz : 2 * (jsRound ((value : ℚ) / (stepc : ℚ)) * stepc) ≤ 2 * value + stepc := by
        exact_mod_cast key
      omega

theorem dragValue_core (vmin vmax stepc : ℤ) (pct : ℚ) (hmm : vmin ≤ vmax)
    (hs : 1 ≤ stepc) (h0 : 0 ≤ pct) (h1 : pct ≤ 1) :
    vmin ≤ dragValue vmin vmax stepc pct false ∧
      (dragValue vmin vmax stepc pct false = vmax ∨
        stepc ∣ (dragValue vmin vmax stepc pct false - vmin) ∨
        dragValue vmin vmax stepc pct false - vmin = vmin) ∧
      2 * dragValue vmin vmax stepc pct false ≤ 2 * vmax + stepc := by
  have hL : (0 : ℤ) ≤ vmax - vmin := by omega
  have hLq : (0 : ℚ) ≤ ((vmax - vmin : ℤ) : ℚ) := by exact_mod_cast hL
  have hv0nn : (0 : ℚ) ≤ pct * ((vmax - vmin : ℤ) : ℚ) := mul_nonneg h0 hLq
  have hv0le : pct * ((vmax - vmin : ℤ) : ℚ) ≤ ((vmax - vmin : ℤ) : ℚ) := by
    calc pct * ((vmax - vmin : ℤ) : ℚ) ≤ 1 * ((vmax - vmin : ℤ) : ℚ) :=
          mul_le_mul_of_nonneg_right h1 hLq
    _ = ((vmax - vmin : ℤ) : ℚ) := one_mul _
  have hval0 : 0 ≤ jsRound (pct * ((vmax - vmin : ℤ) : ℚ)) := jsRound_nonneg hv0nn
  have hval1 : jsRound (pct * ((vmax - vmin : ℤ) : ℚ)) ≤ vmax - vmin :=
    jsRound_le_int hv0le
  have hspec := dragStepLimit_spec vmin (vmax - vmin) stepc
    (jsRound (pct * ((vmax - vmin : ℤ) : ℚ))) hL hs hval0 hval1
  have hdef : dragValue vmin vmax stepc pct false =
      dragStepLimit vmin (vmax - vmin) stepc
        (jsRound (pct * ((vmax - vmin : ℤ) : ℚ))) + vmin := by
    rw [dragValue]
    simp
  rw [hdef]
  obtain ⟨ha, hb, hc⟩ := hspec
  refine ⟨by omega, ?_, by omega⟩
  rcases hb with hb | hb | hb
  · exact Or.inl (by omega)
  · exact Or.inr (Or.inl (by simpa using hb))
  · exact Or.inr (Or.inr (by omega))

theorem dragClampPos_mem (startPos endPos pos : ℚ) (h : startPos ≤ endPos) :
    startPos ≤ dragClampPos startPos endPos pos false ∧
      dragClampPos startPos endPos pos false ≤ endPos := by
  rw [dragClampPos]
  simp only [Bool.false_eq_true, if_false, decide_eq_true_eq]
  by_cases h1 : pos ≤ startPos
  · rw [if_pos h1]
    exact ⟨le_refl _, h⟩
  · rw [if_neg h1]
    by_cases h2 : endPos ≤ pos
    · rw [if_pos h2]
      exact ⟨h, le_refl _⟩
    · rw [if_neg h2]
      exact ⟨by linarith, by linarith⟩

/-- C2: the claim states the drag value always satisfies `min ≤ v ≤ max`.
This is false: only a pre-rounded value that already reached the track length
is clamped to `max`; rounding onto the step grid afterwards can overshoot.
With `min = 0`, `max = 10`, `step = 6`, a knob dragged to 90% of a 100px
track (well inside the clamp limits) yields
`round(9 / 6) * 6 = 2 * 6 = 12 > max`. -/
theorem dragValue_counterexample :
    dragValue 0 10 6
        (dragPct (dragClampPos (-(0 / 2)) (100 - 0 / 2) 90 false) 0 100) false = 12 ∧
      ¬((12 : ℤ) ≤ 10) := by
  refine ⟨?_, by norm_num⟩
  have hp : dragClampPos (-(0 / 2)) (100 - 0 / 2) 90 false = 90 := by
    norm_num [dragClampPos]
  rw [hp]
  have hpct : dragPct 90 0 100 = 9/10 := by norm_num [dragPct]
  rw [hpct]
  have h9 : jsRound ((9 : ℚ) / 10 * ((10 - 0 : ℤ) : ℚ)) = 9 := by
    norm_num [jsRound]
  rw [dragValue]
  simp only [Bool.false_eq_true, if_false]
  rw [h9]
  have hna : ((9 : ℤ).natAbs : ℤ) % 6 = 3 := by decide
  rw [dragStepLimit, if_neg (by norm_num), if_neg (by simp [hna]), jsRound]
  norm_num

/-- C2 (amended): for an integer configuration (`min ≤ max`, integer
`step ≥ 1`, the `decimalCount = 0` path) and a knob position clamped between
limits lying inside the track, the drag value `v` satisfies `v ≥ min`, and
`v` is either `max`, or `min` plus a multiple of `step`, or `2·min` (the step
test compares the min-relative value against the absolute `min`, letting the
raw value through when it happens to equal `min`); `v` can exceed `max` when
rounding onto the step grid, but only by at most `step/2`
(`2·v ≤ 2·max + step`). -/
theorem drag_value_bounds (vmin vmax stepc : ℤ)
    (startPos endPos knobSize lineSize pos : ℚ) (hmm : vmin ≤ vmax)
    (hs : 1 ≤ stepc) (hls : 0 < lineSize)
    (hstart : -(knobSize / 2) ≤ startPos) (hend : endPos ≤ lineSize - knobSize / 2)
    (hse : startPos ≤ endPos) :
    vmin ≤ dragValue vmin vmax stepc
        (dragPct (dragClampPos startPos endPos pos false) knobSize lineSize) false ∧
      (dragValue vmin vmax stepc
          (dragPct (dragClampPos startPos endPos pos false) knobSize lineSize) false
            = vmax ∨
        stepc ∣ (dragValue vmin vmax stepc
          (dragPct (dragClampPos startPos endPos pos false) knobSize lineSize) false
            - vmin) ∨
        dragValue vmin vmax stepc
          (dragPct (dragClampPos startPos endPos pos false) knobSize lineSize) false
            - vmin = vmin) ∧
      2 * dragValue vmin vmax stepc
          (dragPct (dragClampPos startPos endPos pos false) knobSize lineSize) false
        ≤ 2 * vmax + stepc := by
  obtain ⟨ha, hb⟩ := dragClampPos_mem startPos endPos pos hse
  have h0 : 0 ≤ dragPct (dragClampPos startPos endPos pos false) knobSize lineSize := by
    rw [dragPct]
    apply div_nonneg _ (le_of_lt hls)
    linarith
  have h1 : dragPct (dragClampPos startPos endPos pos false) knobSize lineSize ≤ 1 := by
    rw [dragPct, div_le_one hls]
    linarith
  exact dragValue_core vmin vmax stepc _ hmm hs h0 h1

/-- Witness for the amended C2 at a concrete drag: a 100px track, knob at
50px, `min = 0`, `max = 10`, `step = 3` (the resulting value is 6). -/
theorem drag_value_bounds_witness :
    (0 : ℤ) ≤ dragValue 0 10 3
        (dragPct (dragClampPos 0 100 50 false) 0 100) false ∧
      (dragValue 0 10 3 (dragPct (dragClampPos 0 100 50 false) 0 100) false = 10 ∨
        (3 : ℤ) ∣ (dragValue 0 10 3
          (dragPct (dragClampPos 0 100 50 false) 0 100) false - 0) ∨
        dragValue 0 10 3 (dragPct (dragClampPos 0 100 50 false) 0 100) false - 0
          = 0) ∧
      2 * dragValue 0 10 3 (dragPct (dragClampPos 0 100 50 false) 0 100) false
        ≤ 2 * 10 + 3 :=
  drag_value_bounds 0 10 3 0 100 0 100 50 (by norm_num) (by norm_num)
    (by norm_num) (by norm_num) (by norm_num) (by norm_num)

end VcfSlider
